import Mathlib

/-!
Verification of the AMS report-consolidation pipeline (`ams_report.py`).

The pipeline's in-memory tables (pandas DataFrames) are embedded as a
`DF` structure: an ordered list of column names together with an ordered
list of rows, each row an ordered list of scalar cells.  Cells are
numbers (modelled as rationals), strings, dates (the `Parsed_Date`
values added by `consolidate_environment_data`, encoded as a single
natural sort key), or missing (`NaN`).

Every definition below is a direct translation of the corresponding
Python function in `ams_report.py`, except for the few definitions whose
doc comment starts with `Modelled from the spec:` (behaviour the spec
describes but the source file does not contain) and the `spec...`
definitions that transcribe the specification's own wording so that it
can be compared against the code's behaviour.
-/

/-- An exact decimal number `m / 10 ^ e`, the computable stand-in for
the numeric cell values (Python/Excel floats) that appear in this
pipeline; `Dec.toRat` gives its rational value. -/
structure Dec where
  m : Int
  e : Nat
deriving DecidableEq, Repr

/-- Integer power `10 ^ e`. -/
def pow10 : Nat → Int
  | 0 => 1
  | n + 1 => 10 * pow10 n

/-- Order on decimals by cross multiplication. -/
def Dec.le (a b : Dec) : Prop :=
  a.m * pow10 b.e ≤ b.m * pow10 a.e

instance (a b : Dec) : Decidable (Dec.le a b) :=
  inferInstanceAs (Decidable (a.m * pow10 b.e ≤ b.m * pow10 a.e))

/-- The rational value of a decimal. -/
def Dec.toRat (d : Dec) : ℚ :=
  (d.m : ℚ) / (10 : ℚ) ^ d.e

theorem pow10_cast (e : Nat) : ((pow10 e : Int) : ℚ) = (10 : ℚ) ^ e := by
  induction e with
  | zero => simp [pow10]
  | succ n ih => simp [pow10, pow_succ, ih]; ring

theorem pow10_pos (e : Nat) : (0 : ℚ) < ((pow10 e : Int) : ℚ) := by
  rw [pow10_cast]
  positivity

/-- Lemma: `Dec.le` agrees with the rational order. -/
theorem Dec.le_iff_toRat (a b : Dec) : Dec.le a b ↔ a.toRat ≤ b.toRat := by
  unfold Dec.le Dec.toRat
  rw [div_le_div_iff₀ (by positivity) (by positivity)]
  rw [← pow10_cast, ← pow10_cast, ← Int.cast_mul, ← Int.cast_mul, Int.cast_le]

/-- A scalar cell of a table: a number (exact decimals model the
Python/Excel numerics appearing here), a text value, a parsed report
date (encoded as a natural sort key, standing in for a `datetime`), or
a missing value (`NaN`). -/
inductive Cell where
  | num (v : Dec)
  | str (s : String)
  | date (d : Nat)
  | na
deriving DecidableEq, Repr

/-- A table (pandas `DataFrame`): ordered column names plus ordered rows,
each row an ordered list of cells aligned positionally with `cols`. -/
structure DF where
  cols : List String
  rows : List (List Cell)
deriving DecidableEq, Repr

/-- Well-formedness: every row has exactly one cell per column. -/
def DFWF (df : DF) : Prop :=
  ∀ r ∈ df.rows, r.length = df.cols.length

instance : DecidablePred DFWF := fun df =>
  inferInstanceAs (Decidable (∀ r ∈ df.rows, r.length = df.cols.length))

/-- pandas `DataFrame.empty`: true when there are no rows or no columns. -/
def DF.isEmptyDF (df : DF) : Bool :=
  df.rows.isEmpty || df.cols.isEmpty

/-- Keep the elements of a list whose mask bit is `true` (positional). -/
def maskFilter : List Bool → List α → List α
  | true :: bs, a :: as => a :: maskFilter bs as
  | false :: bs, _ :: as => maskFilter bs as
  | _, _ => []

/-- Keep-flags for `pandas.Index.duplicated`: position `i` is kept iff
its name did not occur at an earlier position (`seen` accumulates the
names already passed). -/
def keepFlagsAux (seen : List String) : List String → List Bool
  | [] => []
  | c :: cs => (if c ∈ seen then false else true) :: keepFlagsAux (c :: seen) cs

/-- Name-level view of first-occurrence de-duplication. -/
def dedupNamesAux (seen : List String) : List String → List String
  | [] => []
  | c :: cs =>
    if c ∈ seen then dedupNamesAux (c :: seen) cs
    else c :: dedupNamesAux (c :: seen) cs

/-- Column names after dropping later duplicates (first occurrence kept). -/
def dedupNames (l : List String) : List String :=
  dedupNamesAux [] l

/-- Embeds `merged_df.loc[:, ~merged_df.columns.duplicated()]`: drop every
column whose name already occurred at an earlier position, keeping the
first occurrence (both the name and its cells). -/
def dedupCols (df : DF) : DF :=
  ⟨maskFilter (keepFlagsAux [] df.cols) df.cols,
   df.rows.map (maskFilter (keepFlagsAux [] df.cols))⟩

theorem maskFilter_keepFlags_eq_dedupNames (seen : List String) :
    ∀ l : List String, maskFilter (keepFlagsAux seen l) l = dedupNamesAux seen l := by
  intro l
  induction l generalizing seen with
  | nil => rfl
  | cons c cs ih =>
    by_cases h : c ∈ seen
    · simp [keepFlagsAux, dedupNamesAux, maskFilter, h, ih]
    · simp [keepFlagsAux, dedupNamesAux, maskFilter, h, ih]

theorem mem_dedupNamesAux {x : String} (seen : List String) :
    ∀ l : List String, x ∈ dedupNamesAux seen l ↔ x ∈ l ∧ x ∉ seen := by
  intro l
  induction l generalizing seen with
  | nil => simp [dedupNamesAux]
  | cons c cs ih =>
    by_cases h : c ∈ seen
    · simp only [dedupNamesAux, if_pos h, ih, List.mem_cons]
      constructor
      · rintro ⟨hx, hns⟩
        exact ⟨Or.inr hx, fun hs => hns (Or.inr hs)⟩
      · rintro ⟨hx | hx, hns⟩
        · exact absurd (hx ▸ h) hns
        · exact ⟨hx, fun hs => hs.elim (fun he => hns (he ▸ h)) hns⟩
    · simp only [dedupNamesAux, if_neg h, List.mem_cons, ih]
      constructor
      · rintro (rfl | ⟨hx, hns⟩)
        · exact ⟨Or.inl rfl, h⟩
        · exact ⟨Or.inr hx, fun hs => hns (Or.inr hs)⟩
      · rintro ⟨hx | hx, hns⟩
        · exact Or.inl hx
        · by_cases hxc : x = c
          · exact Or.inl hxc
          · exact Or.inr ⟨hx, fun hs => hs.elim hxc hns⟩

theorem nodup_dedupNamesAux (seen : List String) :
    ∀ l : List String, (dedupNamesAux seen l).Nodup := by
  intro l
  induction l generalizing seen with
  | nil => simp [dedupNamesAux]
  | cons c cs ih =>
    by_cases h : c ∈ seen
    · simpa [dedupNamesAux, if_pos h] using ih (c :: seen)
    · simp only [dedupNamesAux, if_neg h, List.nodup_cons]
      refine ⟨fun hc => ?_, ih (c :: seen)⟩
      rcases (mem_dedupNamesAux (c :: seen) cs).mp hc with ⟨_, hns⟩
      exact hns (List.mem_cons_self _ _)

theorem dedupCols_cols (df : DF) : (dedupCols df).cols = dedupNames df.cols :=
  maskFilter_keepFlags_eq_dedupNames [] df.cols

theorem dedupCols_cols_nodup (df : DF) : (dedupCols df).cols.Nodup := by
  rw [dedupCols_cols]
  exact nodup_dedupNamesAux [] df.cols

theorem mem_dedupCols_cols {c : String} (df : DF) :
    c ∈ (dedupCols df).cols ↔ c ∈ df.cols := by
  rw [dedupCols_cols, dedupNames, mem_dedupNamesAux]
  simp

/-- The fixed priority list of identifier columns used as join keys
(`merge_data_horizontally`, line 66). -/
def priorityCols : List String :=
  ["InstanceId", "Identifier", "DBInstanceIdentifier", "DBName", "InstanceName"]

/-- The loop over `priorityCols` with `break`: the first candidate name
present in both the accumulator and the incoming table, if any. -/
def findCommonKey (a b : DF) : Option String :=
  priorityCols.find? (fun c => a.cols.contains c && b.cols.contains c)

/-- Position of a column name in a table (first occurrence). -/
def keyIdx (df : DF) (key : String) : Nat :=
  df.cols.findIdx (· == key)

/-- The cells of the key column, row by row. -/
def keyCells (df : DF) (key : String) : List Cell :=
  df.rows.map (fun r => r.getD (keyIdx df key) Cell.na)

/-- The plan entries contributed by one left row `(index, key cell)`:
one matched pair per right row with an equal key, or a single
left-only entry when no right key matches. -/
def joinPlanLeft (kR : List Cell) (p : Nat × Cell) : List (Option Nat × Option Nat) :=
  let ms := (kR.enum.filter (fun q => q.2 == p.2)).map
    (fun q => ((some p.1 : Option Nat), (some q.1 : Option Nat)))
  if ms.isEmpty then [((some p.1 : Option Nat), (none : Option Nat))] else ms

/-- Row-matching plan of a pandas outer join on one key: each element
pairs an optional left row index with an optional right row index.
Matched keys give the cross product of their occurrences; left rows
without a partner keep `none` on the right, and right rows whose key
appears nowhere on the left are appended at the end. -/
def joinPlan (kL kR : List Cell) : List (Option Nat × Option Nat) :=
  (kL.enum.map (joinPlanLeft kR)).flatten
  ++ (kR.enum.filter (fun q => !kL.contains q.2)).map
      (fun q => ((none : Option Nat), (some q.1 : Option Nat)))

/-- The right table's columns other than the join key, with their
positions. -/
def nonKeyEnum (df : DF) (key : String) : List (Nat × String) :=
  df.cols.enum.filter (fun p => !(p.2 == key))

/-- Embeds the `pd.merge(..., suffixes=('', '_dup_<i>'))` renaming: a right column
shared with the left table gets the step-indexed suffix; the left table
keeps its names (empty suffix). -/
def renamedRightCols (L R : DF) (key : String) (i : Nat) : List String :=
  (nonKeyEnum R key).map
    (fun p => if L.cols.contains p.2 then p.2 ++ "_dup_" ++ toString i else p.2)

/-- The output row for one plan entry: the left row's cells (or `NaN`
everywhere except the key position, which receives the right key for a
right-only row), followed by the right row's non-key cells (or `NaN`
for a left-only row). -/
def mergeRowFor (L R : DF) (key : String) (pr : Option Nat × Option Nat) : List Cell :=
  (match pr.1 with
   | some j => L.rows.getD j []
   | none => L.cols.enum.map (fun p =>
       if p.1 == keyIdx L key then
         (match pr.2 with
          | some k => (keyCells R key).getD k Cell.na
          | none => Cell.na)
       else Cell.na))
  ++
  (match pr.2 with
   | some k => (nonKeyEnum R key).map (fun p => (R.rows.getD k []).getD p.1 Cell.na)
   | none => (nonKeyEnum R key).map (fun _ => Cell.na))

/-- Embeds `pd.merge(merged_df, df, on=merge_col, how='outer', suffixes=('', '_dup_<i>'))`:
columns are the left columns followed by the renamed right non-key
columns; rows follow the join plan, with `NaN` filling the side a row
does not come from (the key cell of a right-only row is placed in the
left key position). -/
def pdMergeOuter (L R : DF) (key : String) (i : Nat) : DF :=
  ⟨L.cols ++ renamedRightCols L R key i,
   (joinPlan (keyCells L key) (keyCells R key)).map (mergeRowFor L R key)⟩

/-- Embeds `pd.concat([...], axis=1)` after `reset_index(drop=True)`: positional
row alignment, padding the shorter side with `NaN` rows. -/
def pdConcatH (a b : DF) : DF :=
  ⟨a.cols ++ b.cols,
   (List.range (max a.rows.length b.rows.length)).map (fun j =>
     (if j < a.rows.length then a.rows.getD j [] else List.replicate a.cols.length Cell.na)
     ++ (if j < b.rows.length then b.rows.getD j [] else List.replicate b.cols.length Cell.na))⟩

/-- One iteration of the merge loop for table `i`: outer join on the
first common identifier when one exists, positional concatenation (the
warned degraded mode) otherwise. -/
def mergeStep (i : Nat) (acc df : DF) : DF :=
  match findCommonKey acc df with
  | some k => pdMergeOuter acc df k i
  | none => pdConcatH acc df

/-- The merge loop `for i in range(1, len(dataframes))`. -/
def mergeAux (i : Nat) (acc : DF) : List DF → DF
  | [] => acc
  | d :: ds => mergeAux (i + 1) (mergeStep i acc d) ds

/-- The merge result before the final duplicate-column drop. -/
def preMerged : List DF → DF
  | [] => ⟨[], []⟩
  | d :: ds => mergeAux 1 d ds

/-- Embeds `merge_data_horizontally`: empty input gives an empty table;
otherwise fold the merge step over the tail and drop duplicate column
names, keeping the first occurrence. -/
def merge_data_horizontally (dfs : List DF) : DF :=
  match dfs with
  | [] => ⟨[], []⟩
  | d :: ds => dedupCols (mergeAux 1 d ds)

/-- The per-environment allowlist of columns to highlight
(`find_columns_to_highlight`, lines 138-182). -/
def environmentColumns (environment : String) : List String :=
  if environment == "Batalan" then
    ["95p CPUUtilization (%) - 30 days",
     "95p CPUUtilization (%) - 24 hours",
     "Current CPUUtilization (%)"]
  else if environment == "Patikar" then
    ["95p CPUUtilization (%) - 30 days",
     "95p CPUUtilization (%) - 24 hours",
     "Current CPUUtilization (%)"]
  else if environment == "Production" then
    ["95p CPUUtilization (%) - 30 days",
     "95p CPUUtilization (%) - 24 hours",
     "Current CPUUtilization (%)",
     "95p CPUUtilization (%) - 30 days_dup_1",
     "95p CPUUtilization (%) - 24 hours_dup_1",
     "Current CPUUtilization (%)_dup_1",
     "Max Engine CPUUtilization (%) - 30 days",
     "Max Engine CPUUtilization (%) - 24 hours",
     "Broker 1 CpuUser (%) - Max Over 1 day",
     "Broker 1 CpuSystem (%) - Max Over 1 day",
     "Broker 1 MemoryUsed (GB) - Max Over 1 day",
     "Broker 2 CpuUser (%) - Max Over 1 day",
     "Broker 2 CpuSystem (%) - Max Over 1 day",
     "Broker 2 MemoryUsed (GB) - Max Over 1 day",
     "Broker 3 CpuUser (%) - Max Over 1 day",
     "Broker 3 CpuSystem (%) - Max Over 1 day",
     "Broker 3 MemoryUsed (GB) - Max Over 1 day"]
  else if environment == "Shared_services" then
    ["95p CPUUtilization (%) - 30 days",
     "95p CPUUtilization (%) - 24 hours",
     "Current CPUUtilization (%)",
     "95p CPUUtilization (%) - 30 days_dup_1",
     "95p CPUUtilization (%) - 24 hours_dup_1",
     "Current CPUUtilization (%)_dup_1",
     "Maximum Database Memory Usage (%) - 30 days",
     "Maximum Database Memory Usage (%) - 24 hours",
     "Current Database Memory Usage (%)",
     "Max Engine CPUUtilization (%) - 30 days",
     "Max Engine CPUUtilization (%) - 24 hours",
     "Current Engine CPUUtilization (%)"]
  else []

/-- Embeds `find_columns_to_highlight`: the environment's allowlisted columns
that actually exist in the table, in allowlist order. -/
def find_columns_to_highlight (df : DF) (environment : String) : List String :=
  (environmentColumns environment).filter (fun c => df.cols.contains c)

/-- Embeds `chr(65 + col_idx)` (line 225): the single character used as the
column reference in the highlight formula. -/
def colLetterOf (idx : Nat) : Char :=
  Char.ofNat (65 + idx)

/-- The f-string
`=AND(ISNUMBER({col_letter}2), {col_letter}2>=0, {col_letter}2<=14)`
with `col_letter = chr(65 + idx)`. -/
def criteriaFor (idx : Nat) : String :=
  "=AND(ISNUMBER(" ++ String.mk [colLetterOf idx] ++ "2), "
    ++ String.mk [colLetterOf idx] ++ "2>=0, "
    ++ String.mk [colLetterOf idx] ++ "2<=14)"

/-- The Python dict `col_indices` maps each column name to its position;
a later duplicate name overwrites an earlier one, so lookups return the
last position of the name. -/
def lastIdxOf (cols : List String) (c : String) : Option Nat :=
  ((cols.enum.filter (fun p => p.2 == c)).map (fun p => p.1)).getLast?

/-- Embeds `apply_conditional_formatting` as data: for each highlight column
present in `col_indices`, the (column index, formula criteria) pair
registered with the worksheet over rows `1 .. len(df)`. -/
def conditionalFormats (df : DF) (env : String) : List (Nat × String) :=
  (find_columns_to_highlight df env).filterMap
    (fun c => (lastIdxOf df.cols c).map (fun i => (i, criteriaFor i)))

/-- Excel `ISNUMBER` plus the numeric value of a cell as written by
`to_excel`: numbers are numbers, `Parsed_Date` datetimes become Excel
date serial numbers, text and empty cells are not numeric. -/
def cellNumValue : Cell → Option Dec
  | Cell.num v => some v
  | Cell.date d => some ⟨(d : Int), 0⟩
  | Cell.str _ => none
  | Cell.na => none

/-- Semantics of the emitted test
`AND(ISNUMBER(x), x>=0, x<=14)` applied to one cell value. -/
def formulaHolds (c : Cell) : Bool :=
  match cellNumValue c with
  | some v => decide (Dec.le ⟨0, 0⟩ v) && decide (Dec.le v ⟨14, 0⟩)
  | none => false

/-- The worksheet written by `to_excel(index=False)`: row 0 is the
header, row `wr ≥ 1` holds data row `wr - 1`. -/
def worksheetCell (df : DF) (wr wc : Nat) : Cell :=
  if wr = 0 then Cell.str (df.cols.getD wc "")
  else (df.rows.getD (wr - 1) []).getD wc Cell.na

/-- Column indices carrying a highlight rule in this sheet. -/
def highlightIdxList (df : DF) (env : String) : List Nat :=
  (conditionalFormats df env).map (fun p => p.1)

/-- Excel A1 resolution of a SINGLE-character column reference:
uppercase and lowercase letters denote columns 0..25 (A1 references
are case-insensitive); any other character makes the formula invalid,
so the reference denotes no column. -/
def letterColumn (c : Char) : Option Nat :=
  if 'A' ≤ c ∧ c ≤ 'Z' then some (c.toNat - 65)
  else if 'a' ≤ c ∧ c ≤ 'z' then some (c.toNat - 97)
  else none

/-- Whether worksheet cell `(wr, wc)` is marked green.  A conditional
format registered at column index `idx` covers rows `1 .. len(df)` of
column `idx` only, and its criteria references `chr(65+idx)` at row 2
— relative to the range's top-left cell `(row 2, column idx)` — so at
each covered cell the reference resolves to the cell's own row and the
column DENOTED BY THE CHARACTER: the cell's own column exactly when
`chr(65+idx)` is a letter for index `idx` (that is, `idx ≤ 25`).  When
the character is no column letter at all the formula is invalid and
the rule marks nothing (a consumer drops the unreadable rule). -/
def sheetMarked (df : DF) (env : String) (wr wc : Nat) : Bool :=
  (conditionalFormats df env).any (fun p =>
    p.1 == wc && decide (1 ≤ wr) && decide (wr ≤ df.rows.length) &&
      (match letterColumn (colLetterOf p.1) with
       | some cx => formulaHolds (worksheetCell df wr cx)
       | none => false))

/-- Value of a nonempty all-digit character list, `none` otherwise. -/
def digitsVal (cs : List Char) : Option Nat :=
  if cs.length > 0 && cs.all Char.isDigit then
    some (cs.foldl (fun a c => a * 10 + (c.toNat - 48)) 0)
  else none

/-- Split a character list on a separator character (Python
`str.split(sep)` semantics: `n` separators give `n + 1` pieces). -/
def splitOnChar (sep : Char) : List Char → List (List Char)
  | [] => [[]]
  | c :: rest =>
    if c == sep then [] :: splitOnChar sep rest
    else
      match splitOnChar sep rest with
      | [] => [[c]]
      | t :: ts => (c :: t) :: ts

/-- Modelled from the spec: "after stripping a trailing percent sign"
(section 4.4); removes one trailing `%` if present. -/
def stripTrailingPercent (cs : List Char) : List Char :=
  match cs.reverse with
  | '%' :: rest => rest.reverse
  | _ => cs

/-- Modelled from the spec: "every non-missing value parses as a
number" (section 4.4); a plain decimal parser for an optional minus
sign, digits, and an optional fractional part, yielding the exact
decimal value. -/
def parseNumDec (cs : List Char) : Option Dec :=
  let neg : Bool := match cs with | '-' :: _ => true | _ => false
  let t := if neg then cs.drop 1 else cs
  match splitOnChar '.' t with
  | [i] =>
    (digitsVal i).map (fun n => ⟨(if neg then -1 else 1) * (n : Int), 0⟩)
  | [i, f] =>
    if decide (0 < i.length + f.length) && (i ++ f).all Char.isDigit then
      some ⟨(if neg then -1 else 1)
        * (((i ++ f).foldl (fun a c => a * 10 + (c.toNat - 48)) 0 : Nat) : Int), f.length⟩
    else none
  | _ => none

/-- The claim's notion of a cell value being "numeric (after optional
stripping of a trailing percent sign)", transcribed from the spec for
comparison with the code's formula semantics. -/
def specNumValue : Cell → Option Dec
  | Cell.num v => some v
  | Cell.date d => some ⟨(d : Int), 0⟩
  | Cell.str s => parseNumDec (stripTrailingPercent s.toList)
  | Cell.na => none

/-- The claim's marking predicate: numeric after optional percent-sign
stripping and within the inclusive range 0 to 14. -/
def specInRange (c : Cell) : Bool :=
  match specNumValue c with
  | some v => decide (Dec.le ⟨0, 0⟩ v) && decide (Dec.le v ⟨14, 0⟩)
  | none => false

/-- Whether the first list is a prefix of the second. -/
def startsWithList [BEq α] : List α → List α → Bool
  | [], _ => true
  | _ :: _, [] => false
  | p :: ps, a :: as => p == a && startsWithList ps as

/-- Whether `pat` occurs as a contiguous sublist. -/
def containsSub [BEq α] (pat : List α) : List α → Bool
  | [] => startsWithList pat []
  | a :: as => startsWithList pat (a :: as) || containsSub pat as

/-- The lower-cased characters of a string (Python `str.lower()`). -/
def lowerChars (s : String) : List Char :=
  s.toList.map Char.toLower

/-- Whether the lower-cased name contains the given pattern. -/
def strContainsSub (s pat : String) : Bool :=
  containsSub pat.toList (lowerChars s)

/-- Cells of a named column (first occurrence), empty if absent. -/
def colCellsOf (df : DF) (c : String) : List Cell :=
  match df.cols.findIdx? (fun x => x == c) with
  | some i => df.rows.map (fun r => r.getD i Cell.na)
  | none => []

/-- Modelled from the spec: the pattern policy's numeric-coercibility
check (section 4.4) — the source's `find_columns_to_highlight`
implements only the allowlist policy, so the generic pattern mode is
absent from `ams_report.py`.  A column passes when every non-missing
value is natively numeric or parses as a number after stripping a
trailing percent sign. -/
def numericCoercible (df : DF) (c : String) : Bool :=
  (colCellsOf df c).all (fun v =>
    match v with
    | Cell.num _ => true
    | Cell.date _ => true
    | Cell.na => true
    | Cell.str s => (parseNumDec (stripTrailingPercent s.toList)).isSome)

/-- Modelled from the spec: the Column Classifier's pattern policy
(generic mode, section 4.4), absent from `ams_report.py`.  A column is
eligible iff its lower-cased name contains some include pattern, none
of the exclude patterns, and the column is numeric-coercible. -/
def patternEligible (includes excludes : List String) (df : DF) (c : String) : Bool :=
  (includes.any (fun p => strContainsSub c p))
    && !(excludes.any (fun p => strContainsSub c p))
    && numericCoercible df c

/-- Consume `\d{1,2}-` from the head of a character list, with the
regex engine's greedy two-digit-first backtracking. -/
def digitsDash : List Char → Option (List Char)
  | a :: b :: c :: rest =>
    if a.isDigit && b.isDigit && c == '-' then some rest
    else if a.isDigit && b == '-' then some (c :: rest)
    else none
  | [a, b] => if a.isDigit && b == '-' then some [] else none
  | _ => none

/-- Whether a character list starts with `\d{4}`. -/
def fourDigits : List Char → Bool
  | a :: b :: c :: d :: _ => a.isDigit && b.isDigit && c.isDigit && d.isDigit
  | _ => false

/-- Embeds `re.match(r'\d{1,2}-\d{1,2}-\d{4}', item)` (line 29): an
UNANCHORED prefix match — anything may follow the matched prefix. -/
def dateRegexAccepts (s : String) : Bool :=
  match digitsDash s.toList with
  | some r1 =>
    match digitsDash r1 with
    | some r2 => fourDigits r2
    | none => false
  | none => false

/-- Gregorian leap year. -/
def isLeapYear (y : Nat) : Bool :=
  (y % 4 == 0 && y % 100 != 0) || (y % 400 == 0)

/-- Days in a month. -/
def daysInMonth (m y : Nat) : Nat :=
  if m == 2 then (if isLeapYear y then 29 else 28)
  else if m == 4 || m == 6 || m == 9 || m == 11 then 30
  else 31

/-- Embeds `datetime.strptime(s, '%m-%d-%Y')`: the WHOLE string must be a
1-2 digit month, a 1-2 digit day and a 4-digit year separated by
hyphens, and the triple must be a valid calendar date; the result is
encoded as a single natural respecting date order. -/
def parseMDY (s : String) : Option Nat :=
  match splitOnChar '-' s.toList with
  | [ms, ds, ys] =>
    match digitsVal ms, digitsVal ds, digitsVal ys with
    | some m, some d, some y =>
      if decide (1 ≤ ms.length) && decide (ms.length ≤ 2)
          && decide (1 ≤ ds.length) && decide (ds.length ≤ 2)
          && ys.length == 4 && decide (1 ≤ m) && decide (m ≤ 12)
          && decide (1 ≤ d) && decide (d ≤ daysInMonth m y) then
        some (y * 512 + m * 32 + d)
      else none
    | _, _, _ => none
  | _ => none

/-- Stable sort, descending by a natural-number key (Python
`sorted(..., key=..., reverse=True)` / `sort_values(ascending=False)`). -/
def sortDescBy (f : α → Nat) (l : List α) : List α :=
  @List.insertionSort α (fun a b => f b ≤ f a) (fun a b => Nat.decLe (f b) (f a)) l

/-- Embeds `get_date_folders`, given the listing of directory names in the
base path (file entries are already excluded by the `isdir` guard):
filter out `Consolidated_Reports` and names rejected by the unanchored
regex, then sort by `strptime` key, newest first.  `strptime` raises
`ValueError` on any retained name that is not a fully valid date, which
aborts the function; that outcome is the `Except.error` branch. -/
def get_date_folders (items : List String) : Except String (List String) :=
  let folders := items.filter
    (fun s => (if s == "Consolidated_Reports" then false else true) && dateRegexAccepts s)
  if folders.all (fun s => (parseMDY s).isSome) then
    Except.ok (sortDescBy (fun s => (parseMDY s).getD 0) folders)
  else Except.error "ValueError"

/-- Embeds `date_data['Parsed_Date'] = datetime.strptime(...)` (line 247):
assigning a scalar to a new column appends it as the last column with
the value broadcast over every row.  This MUTATES the per-date table
before it is stored in `date_sheets_data`. -/
def addConstCol (name : String) (v : Cell) (df : DF) : DF :=
  ⟨df.cols ++ [name], df.rows.map (fun r => r ++ [v])⟩

/-- Columns of `pd.concat(..., sort=False)`: the union of the inputs'
columns in order of first appearance. -/
def unionCols (dfs : List DF) : List String :=
  dfs.foldl (fun acc df => acc ++ df.cols.filter (fun c => !acc.contains c)) []

/-- Re-align one row from its source columns to the target columns,
filling columns the source lacks with `NaN`. -/
def reindexRow (srcCols tgtCols : List String) (row : List Cell) : List Cell :=
  tgtCols.map (fun c =>
    match srcCols.findIdx? (fun x => x == c) with
    | some i => row.getD i Cell.na
    | none => Cell.na)

/-- Embeds `pd.concat(all_environment_data, ignore_index=True, sort=False)`
(line 259): vertical concatenation over the union of columns. -/
def concatRows (dfs : List DF) : DF :=
  ⟨unionCols dfs,
   ((dfs.map (fun df => df.rows.map (reindexRow df.cols (unionCols dfs)))).flatten)⟩

/-- Sort key of a row: the value of the named column when it is a
parsed date, `0` otherwise (in the pipeline every `Parsed_Date` cell is
a date). -/
def rowKey (cols : List String) (key : String) (row : List Cell) : Nat :=
  match cols.findIdx? (fun x => x == key) with
  | some i =>
    match row.getD i Cell.na with
    | Cell.date d => d
    | _ => 0
  | none => 0

/-- Embeds `combined_data.sort_values('Parsed_Date', ascending=False)`
(line 262). -/
def sortValuesDescBy (key : String) (df : DF) : DF :=
  ⟨df.cols, sortDescBy (rowKey df.cols key) df.rows⟩

/-- Embeds `df.drop(columns, axis=1)`: remove every column whose name is in
`names`, keeping the rest in order (equal to the source's guarded
`drop('Parsed_Date', axis=1)`, which is a no-op when absent). -/
def dropDFCols (names : List String) (df : DF) : DF :=
  ⟨maskFilter (df.cols.map (fun c => !names.contains c)) df.cols,
   df.rows.map (maskFilter (df.cols.map (fun c => !names.contains c)))⟩

/-- The per-date tables that pass the `if not date_data.empty` guard. -/
def keptTables (perDate : List (Nat × DF)) : List (Nat × DF) :=
  perDate.filter (fun p => !(p.2.isEmptyDF))

/-- Embeds `date_sheets_data`: each kept per-date table AFTER the in-place
`Parsed_Date` assignment, keyed by its date. -/
def sheetTables (perDate : List (Nat × DF)) : List (Nat × DF) :=
  (keptTables perDate).map (fun p => (p.1, addConstCol "Parsed_Date" (Cell.date p.1) p.2))

/-- The concatenated history sorted by `Parsed_Date` descending, before
the `Parsed_Date` column is dropped. -/
def combinedSorted (perDate : List (Nat × DF)) : DF :=
  sortValuesDescBy "Parsed_Date" (concatRows ((sheetTables perDate).map (fun p => p.2)))

/-- Embeds `consolidate_environment_data`, parameterised by the read results:
`perDate` pairs each discovered date folder's parsed date (descending
discovery order) with the merged table `read_and_merge_excel_files`
returned for it (reading files is the external boundary).  Returns
`none` ("no data") when every date came back empty, otherwise the
combined sorted history (with `Parsed_Date` dropped) plus the per-date
sheet tables. -/
def consolidateEnvironmentData (perDate : List (Nat × DF)) : Option (DF × List (Nat × DF)) :=
  if (keptTables perDate).isEmpty then none
  else some (dropDFCols ["Parsed_Date"] (combinedSorted perDate), sheetTables perDate)

/-- Embeds `self.environments` (line 12). -/
def environments : List String :=
  ["Patikar", "Batalan", "Shared_services", "Production"]

/-- Output workbook name (lines 283-286): capitalisation is normalised
for `Shared_services` only. -/
def outputFileName (env : String) : String :=
  if env == "Shared_services" then "Shared_Services_Consolidated.xlsx"
  else env ++ "_Consolidated.xlsx"

/-- The per-date read results an environment's consolidation loop sees:
one entry per discovered date folder, in order.  `dataFor` models
`read_and_merge_excel_files` (empty table when the directory is missing
or holds no readable files).  The date folders passed here come from
`get_date_folders`, so each name parses. -/
def perDateFor (dateFolders : List String) (dataFor : String → String → DF)
    (env : String) : List (Nat × DF) :=
  dateFolders.map (fun d => ((parseMDY d).getD 0, dataFor d env))

/-- Observable outcome of `process_all_environments`: the workbook
files created and the returned `processed_environments` list. -/
structure RunResult where
  workbooks : List String
  processed : List String
deriving DecidableEq, Repr

/-- Embeds `process_all_environments`: nothing happens without date folders
(the function returns early).  Otherwise each environment of the fixed
list is examined in order; it is appended to `processed_environments`
whenever SOME date folder contains its directory, and a workbook file
is created only when `consolidate_environment_data` found data
(`create_consolidated_workbook` returns before writing when it got
`None`). -/
def processAllEnvironments (dateFolders : List String)
    (envExists : String → String → Bool) (dataFor : String → String → DF) : RunResult :=
  if dateFolders.isEmpty then ⟨[], []⟩
  else
    let procd := environments.filter (fun env => dateFolders.any (fun d => envExists d env))
    ⟨procd.filterMap (fun env =>
        (consolidateEnvironmentData (perDateFor dateFolders dataFor env)).map
          (fun _ => outputFileName env)),
     procd⟩

/-- C5: under the Column Classifier's pattern policy (generic mode,
modelled from the spec since the source implements only the allowlist
policy), a column whose lower-cased name contains at least one include
pattern and at least one exclude pattern is never selected for
highlighting: exclude takes precedence over include. -/
theorem c5_pattern_exclude_wins (includes excludes : List String) (df : DF) (c : String)
    (_hinc : ∃ p ∈ includes, strContainsSub c p = true)
    (hexc : ∃ p ∈ excludes, strContainsSub c p = true) :
    patternEligible includes excludes df c = false := by
  rcases hexc with ⟨p, hp, hcp⟩
  have hany : excludes.any (fun p => strContainsSub c p) = true :=
    List.any_eq_true.mpr ⟨p, hp, hcp⟩
  simp [patternEligible, hany]

/-- Witness for C5 at a concrete input: the name "Max CPU Average (%)"
contains the include pattern "max cpu" and the exclude pattern
"average", and is not selected. -/
theorem c5_pattern_exclude_wins_witness :
    ((∃ p ∈ ["max cpu"], strContainsSub "Max CPU Average (%)" p = true) ∧
     (∃ p ∈ ["average"], strContainsSub "Max CPU Average (%)" p = true)) ∧
    patternEligible ["max cpu"] ["average"] ⟨[], []⟩ "Max CPU Average (%)" = false :=
  ⟨⟨⟨"max cpu", by decide, by decide⟩, ⟨"average", by decide, by decide⟩⟩,
   c5_pattern_exclude_wins ["max cpu"] ["average"] ⟨[], []⟩ "Max CPU Average (%)"
     ⟨"max cpu", by decide, by decide⟩ ⟨"average", by decide, by decide⟩⟩

/-- C3: the Horizontal Merger's output has no two columns with the same
name — the final step keeps, for every name occurring more than once
after all merge steps, only the first occurrence and drops the rest. -/
theorem c3_no_duplicate_columns (dfs : List DF) :
    (merge_data_horizontally dfs).cols.Nodup ∧
    (merge_data_horizontally dfs).cols = dedupNames (preMerged dfs).cols ∧
    (∀ c, c ∈ (merge_data_horizontally dfs).cols ↔ c ∈ (preMerged dfs).cols) := by
  match dfs with
  | [] =>
    refine ⟨List.nodup_nil, rfl, fun c => Iff.rfl⟩
  | d :: ds =>
    exact ⟨dedupCols_cols_nodup _, dedupCols_cols _, fun c => mem_dedupCols_cols _⟩

/-- C7 (code bug): a directory name such as "1-1-2025x" is NOT in the
fixed calendar-date format, yet the unanchored `re.match` lets it
through the filter and `strptime` then raises `ValueError` inside
`sorted`, so date discovery aborts instead of excluding the name. -/
theorem c7_invalid_name_aborts_discovery :
    dateRegexAccepts "1-1-2025x" = true ∧
    parseMDY "1-1-2025x" = none ∧
    get_date_folders ["1-1-2025x", "01-02-2025"] = Except.error "ValueError" :=
  ⟨rfl, rfl, rfl⟩

/-- A sheet whose only column is highlight-eligible for Patikar and
whose single data cell is the TEXT "7%". -/
def dfC1 : DF :=
  ⟨["Current CPUUtilization (%)"], [[Cell.str "7%"]]⟩

/-- C1 counterexample: in a Highlight-Column-Set column, the data cell
"7%" is numeric after stripping its trailing percent sign (value 7,
inside 0..14), so the claim says it is marked; but the emitted formula
requires `ISNUMBER`, which is false for text, so the renderer leaves it
unstyled. -/
theorem c1_percent_text_not_marked :
    "Current CPUUtilization (%)" ∈ find_columns_to_highlight dfC1 "Patikar" ∧
    specInRange (worksheetCell dfC1 1 0) = true ∧
    sheetMarked dfC1 "Patikar" 1 0 = false := by
  refine ⟨by decide, by decide, by decide⟩

theorem letterColumn_colLetterOf_le25 {idx : Nat} (h : idx ≤ 25) :
    letterColumn (colLetterOf idx) = some idx := by
  have hval : (65 + idx).isValidChar := Or.inl (by omega)
  have htn : (colLetterOf idx).toNat = 65 + idx := by
    unfold colLetterOf Char.ofNat
    rw [dif_pos hval]
    rfl
  have hA : 'A' ≤ colLetterOf idx := by
    show (65 : Nat) ≤ (colLetterOf idx).toNat
    omega
  have hZ : colLetterOf idx ≤ 'Z' := by
    show (colLetterOf idx).toNat ≤ 90
    omega
  unfold letterColumn
  rw [if_pos ⟨hA, hZ⟩]
  congr 1
  omega

/-- C1 as amended: for a highlight column at index at most 25 — the
only case in which the emitted single-character reference
`chr(65+idx)` denotes the column itself (for larger indices the
reference misses the column, see C10) — a worksheet cell is marked iff
its column carries a highlight rule, it is a data row (header row 0
excluded, all data rows covered), and its OWN value is natively
numeric and within 0..14; text values — including numeric text with a
percent sign — are never marked, and a numeric cell passes exactly
when `0 ≤ q ≤ 14` (so 0 and 14 are marked, 14.01 and -0.01 are not). -/
theorem c1_marking_characterisation :
    (∀ (df : DF) (env : String) (wr wc : Nat), wc ≤ 25 →
        (sheetMarked df env wr wc = true ↔
          (wc ∈ highlightIdxList df env ∧ 1 ≤ wr ∧ wr ≤ df.rows.length ∧
            formulaHolds (worksheetCell df wr wc) = true))) ∧
    (∀ s, formulaHolds (Cell.str s) = false) ∧
    (∀ v : Dec, formulaHolds (Cell.num v) =
      (decide (Dec.le ⟨0, 0⟩ v) && decide (Dec.le v ⟨14, 0⟩))) := by
  refine ⟨fun df env wr wc hwc => ?_, fun s => rfl, fun v => rfl⟩
  unfold sheetMarked highlightIdxList
  rw [List.any_eq_true]
  constructor
  · rintro ⟨p, hp, hcond⟩
    simp only [Bool.and_eq_true, beq_iff_eq, decide_eq_true_eq] at hcond
    obtain ⟨⟨⟨hpw, h1⟩, h2⟩, hmatch⟩ := hcond
    rw [hpw, letterColumn_colLetterOf_le25 hwc] at hmatch
    exact ⟨List.mem_map.mpr ⟨p, hp, hpw⟩, h1, h2, hmatch⟩
  · rintro ⟨hwcmem, h1, h2, hform⟩
    obtain ⟨p, hp, hpw⟩ := List.mem_map.mp hwcmem
    refine ⟨p, hp, ?_⟩
    simp only [Bool.and_eq_true, beq_iff_eq, decide_eq_true_eq]
    refine ⟨⟨⟨hpw, h1⟩, h2⟩, ?_⟩
    rw [hpw, letterColumn_colLetterOf_le25 hwc]
    exact hform

/-- Witness for the amended C1 at the concrete sheet `dfC1`, whose
highlight column sits at index 0. -/
theorem c1_marking_witness :
    ((0 : Nat) ≤ 25) ∧
    (sheetMarked dfC1 "Patikar" 1 0 = true ↔
      (0 ∈ highlightIdxList dfC1 "Patikar" ∧ 1 ≤ 1 ∧ 1 ≤ dfC1.rows.length ∧
        formulaHolds (worksheetCell dfC1 1 0) = true)) :=
  ⟨by decide, c1_marking_characterisation.1 dfC1 "Patikar" 1 0 (by decide)⟩

theorem mem_enumFrom_mem {p : Nat × α} :
    ∀ {l : List α} {n : Nat}, p ∈ List.enumFrom n l → p.2 ∈ l := by
  intro l
  induction l with
  | nil => intro n h; simp [List.enumFrom] at h
  | cons a as ih =>
    intro n h
    rcases List.mem_cons.mp h with h | h
    · subst h; exact List.mem_cons_self _ _
    · exact List.mem_cons_of_mem _ (ih h)

theorem mem_enumFrom_of_mem {a : α} :
    ∀ {l : List α}, a ∈ l → ∀ n, ∃ i, (i, a) ∈ List.enumFrom n l := by
  intro l
  induction l with
  | nil => intro h; cases h
  | cons b bs ih =>
    intro h n
    rcases List.mem_cons.mp h with rfl | h
    · exact ⟨n, List.mem_cons_self _ _⟩
    · rcases ih h (n + 1) with ⟨i, hi⟩
      exact ⟨i, List.mem_cons_of_mem _ hi⟩

theorem mem_enumFrom_lt {p : Nat × α} :
    ∀ {l : List α} {n : Nat}, p ∈ List.enumFrom n l → n ≤ p.1 ∧ p.1 < n + l.length := by
  intro l
  induction l with
  | nil => intro n h; simp [List.enumFrom] at h
  | cons a as ih =>
    intro n h
    rcases List.mem_cons.mp h with h | h
    · subst h; simp
    · rcases ih h with ⟨h1, h2⟩
      simp only [List.length_cons]
      omega

theorem mem_enumFrom_getD {a : α} (d : α) :
    ∀ {l : List α} {n i : Nat}, (i, a) ∈ List.enumFrom n l → l.getD (i - n) d = a := by
  intro l
  induction l with
  | nil => intro n i h; simp [List.enumFrom] at h
  | cons b bs ih =>
    intro n i h
    rcases List.mem_cons.mp h with h | h
    · rcases Prod.mk.injEq .. ▸ h with ⟨h1, h2⟩
      subst h1
      simp [h2.symm]
    · have hlt := (mem_enumFrom_lt h).1
      have := ih h
      have hin : i - n = (i - (n + 1)) + 1 := by omega
      rw [hin]
      simpa using this

theorem mem_enumFrom_map {a : α} (f : α → β) :
    ∀ {l : List α} {n i : Nat}, (i, a) ∈ List.enumFrom n l →
      (i, f a) ∈ List.enumFrom n (l.map f) := by
  intro l
  induction l with
  | nil => intro n i h; simp [List.enumFrom] at h
  | cons b bs ih =>
    intro n i h
    rcases List.mem_cons.mp h with h | h
    · rcases Prod.mk.injEq .. ▸ h with ⟨h1, h2⟩
      subst h1 h2
      simp [List.enumFrom]
    · simpa [List.enumFrom] using Or.inr (ih h)

theorem enumFrom_map_getD (f : Nat × α → β) (d : β) (dflt : α) :
    ∀ (l : List α) (n i : Nat), i < l.length →
      ((List.enumFrom n l).map f).getD i d = f (n + i, l.getD i dflt) := by
  intro l
  induction l with
  | nil => intro n i h; simp at h
  | cons a as ih =>
    intro n i h
    cases i with
    | zero => simp [List.enumFrom]
    | succ j =>
      simp only [List.length_cons] at h
      have hj : j < as.length := by omega
      have := ih (n + 1) j hj
      simpa [List.enumFrom, Nat.add_assoc, Nat.add_comm 1 j] using this

theorem find?_eq_some_split {p : α → Bool} :
    ∀ {l : List α} {a : α}, l.find? p = some a →
      p a = true ∧ ∃ pre suf, l = pre ++ a :: suf ∧ ∀ x ∈ pre, p x = false := by
  intro l
  induction l with
  | nil => intro a h; simp [List.find?] at h
  | cons b bs ih =>
    intro a h
    cases hpb : p b with
    | true =>
      rw [List.find?_cons_of_pos _ hpb] at h
      cases h
      exact ⟨hpb, [], bs, rfl, by simp⟩
    | false =>
      have hpb' : ¬ p b = true := by simp [hpb]
      rw [List.find?_cons_of_neg _ hpb'] at h
      rcases ih h with ⟨hpa, pre, suf, rfl, hpre⟩
      refine ⟨hpa, b :: pre, suf, rfl, ?_⟩
      intro x hx
      rcases List.mem_cons.mp hx with rfl | hx
      · exact hpb
      · exact hpre x hx

theorem findIdx_lt_of_mem {l : List String} {k : String} (h : k ∈ l) :
    List.findIdx (fun x => x == k) l < l.length := by
  induction l with
  | nil => cases h
  | cons c cs ih =>
    cases hck : (c == k) with
    | true => simp [List.findIdx_cons, hck]
    | false =>
      have hk : k ∈ cs := by
        rcases List.mem_cons.mp h with rfl | h
        · simp at hck
        · exact h
      simp only [List.findIdx_cons, hck, cond_false, List.length_cons]
      exact Nat.succ_lt_succ (ih hk)

theorem joinPlanLeft_exists (kR : List Cell) (p : Nat × Cell) :
    ∃ pr2, ((some p.1 : Option Nat), pr2) ∈ joinPlanLeft kR p := by
  unfold joinPlanLeft
  by_cases h : ((kR.enum.filter (fun q => q.2 == p.2)).map
      (fun q => ((some p.1 : Option Nat), (some q.1 : Option Nat)))).isEmpty
  · exact ⟨none, by simp [h]⟩
  · rw [if_neg h]
    have hne : ((kR.enum.filter (fun q => q.2 == p.2)).map
        (fun q => ((some p.1 : Option Nat), (some q.1 : Option Nat)))) ≠ [] := by
      simpa [List.isEmpty_iff] using h
    obtain ⟨x, hx⟩ := List.exists_mem_of_ne_nil _ hne
    obtain ⟨q, _, rfl⟩ := List.mem_map.mp hx
    exact ⟨some q.1, hx⟩

theorem joinPlan_left_mem (kL kR : List Cell) {p : Nat × Cell} (hp : p ∈ kL.enum) :
    ∃ pr2, ((some p.1 : Option Nat), pr2) ∈ joinPlan kL kR := by
  obtain ⟨pr2, h2⟩ := joinPlanLeft_exists kR p
  exact ⟨pr2, List.mem_append_left _
    (List.mem_flatten.mpr ⟨joinPlanLeft kR p, List.mem_map_of_mem _ hp, h2⟩)⟩

theorem joinPlan_matched_mem (kL kR : List Cell) {j k : Nat} {v : Cell}
    (hj : (j, v) ∈ kL.enum) (hk : (k, v) ∈ kR.enum) :
    ((some j : Option Nat), (some k : Option Nat)) ∈ joinPlan kL kR := by
  have hfil : (k, v) ∈ kR.enum.filter (fun q => q.2 == v) :=
    List.mem_filter.mpr ⟨hk, by simp⟩
  have hms : ((some j : Option Nat), (some k : Option Nat)) ∈
      (kR.enum.filter (fun q => q.2 == v)).map
        (fun q => ((some j : Option Nat), (some q.1 : Option Nat))) :=
    List.mem_map_of_mem _ hfil
  have hbr : ((some j : Option Nat), (some k : Option Nat)) ∈ joinPlanLeft kR (j, v) := by
    unfold joinPlanLeft
    rw [if_neg (by simpa [List.isEmpty_iff] using List.ne_nil_of_mem hms)]
    exact hms
  exact List.mem_append_left _
    (List.mem_flatten.mpr ⟨joinPlanLeft kR (j, v), List.mem_map_of_mem _ hj, hbr⟩)

theorem joinPlan_rightOnly_mem (kL kR : List Cell) {k : Nat} {v : Cell}
    (hk : (k, v) ∈ kR.enum) (hnv : kL.contains v = false) :
    ((none : Option Nat), (some k : Option Nat)) ∈ joinPlan kL kR := by
  refine List.mem_append_right _ ?_
  have hnm : v ∉ kL := by simpa using hnv
  have hfil : (k, v) ∈ kR.enum.filter (fun q => !kL.contains q.2) :=
    List.mem_filter.mpr ⟨hk, by simp [hnm]⟩
  exact List.mem_map_of_mem _ hfil

theorem pdMergeOuter_left_rows (L R : DF) (key : String) (i : Nat) :
    ∀ r ∈ L.rows, ∃ ext, r ++ ext ∈ (pdMergeOuter L R key i).rows := by
  intro r hr
  obtain ⟨j, hj⟩ := mem_enumFrom_of_mem hr 0
  have hget : L.rows.getD j [] = r := by simpa using mem_enumFrom_getD [] hj
  have hkl : (j, r.getD (keyIdx L key) Cell.na) ∈ (keyCells L key).enum :=
    mem_enumFrom_map (fun row => row.getD (keyIdx L key) Cell.na) hj
  obtain ⟨pr2, hpr⟩ := joinPlan_left_mem (keyCells L key) (keyCells R key) hkl
  have hmem := List.mem_map_of_mem (mergeRowFor L R key) hpr
  cases pr2 with
  | some k =>
    refine ⟨(nonKeyEnum R key).map (fun p => (R.rows.getD k []).getD p.1 Cell.na), ?_⟩
    show r ++ _ ∈ (joinPlan (keyCells L key) (keyCells R key)).map (mergeRowFor L R key)
    have hrow : mergeRowFor L R key (some j, some k) =
        r ++ (nonKeyEnum R key).map (fun p => (R.rows.getD k []).getD p.1 Cell.na) := by
      have hget2 : L.rows[j]?.getD [] = r := by simpa using hget
      simp [mergeRowFor, hget2]
    rw [← hrow]
    exact hmem
  | none =>
    refine ⟨(nonKeyEnum R key).map (fun _ => Cell.na), ?_⟩
    show r ++ _ ∈ (joinPlan (keyCells L key) (keyCells R key)).map (mergeRowFor L R key)
    have hrow : mergeRowFor L R key (some j, none) =
        r ++ (nonKeyEnum R key).map (fun _ => Cell.na) := by
      have hget2 : L.rows[j]?.getD [] = r := by simpa using hget
      simp [mergeRowFor, hget2]
    rw [← hrow]
    exact hmem

theorem pdMergeOuter_right_rows (L R : DF) (key : String) (i : Nat)
    (hWFL : DFWF L) (hkeyL : key ∈ L.cols) :
    ∀ r ∈ R.rows, ∃ row ∈ (pdMergeOuter L R key i).rows,
      row.drop L.cols.length = (nonKeyEnum R key).map (fun p => r.getD p.1 Cell.na) ∧
      row.getD (keyIdx L key) Cell.na = r.getD (keyIdx R key) Cell.na := by
  intro r hr
  obtain ⟨k0, hk0⟩ := mem_enumFrom_of_mem hr 0
  have hgetR : R.rows.getD k0 [] = r := by simpa using mem_enumFrom_getD [] hk0
  have hkR : (k0, r.getD (keyIdx R key) Cell.na) ∈ (keyCells R key).enum :=
    mem_enumFrom_map (fun row => row.getD (keyIdx R key) Cell.na) hk0
  have hkiL : keyIdx L key < L.cols.length := findIdx_lt_of_mem hkeyL
  have hvR : (keyCells R key).getD k0 Cell.na = r.getD (keyIdx R key) Cell.na := by
    simpa using mem_enumFrom_getD Cell.na hkR
  by_cases hv : (keyCells L key).contains (r.getD (keyIdx R key) Cell.na)
  · -- a left row shares this key value: the matched pair is in the plan
    have hvmem : r.getD (keyIdx R key) Cell.na ∈ keyCells L key := by simpa using hv
    obtain ⟨j, hj⟩ := mem_enumFrom_of_mem hvmem 0
    have hplan := joinPlan_matched_mem (keyCells L key) (keyCells R key) hj hkR
    have hjlt : j < L.rows.length := by
      have h2 := (mem_enumFrom_lt hj).2
      simpa [keyCells] using h2
    have hlen : (L.rows.getD j []).length = L.cols.length := by
      rw [List.getD_eq_getElem _ _ hjlt]
      exact hWFL _ (List.getElem_mem _)
    refine ⟨mergeRowFor L R key (some j, some k0), ?_, ?_, ?_⟩
    · show _ ∈ (joinPlan (keyCells L key) (keyCells R key)).map (mergeRowFor L R key)
      exact List.mem_map_of_mem _ hplan
    · simp only [mergeRowFor]
      rw [← hlen, List.drop_left, hgetR]
    · have hkl_j : (keyCells L key).getD j Cell.na = r.getD (keyIdx R key) Cell.na := by
        simpa using mem_enumFrom_getD Cell.na hj
      have hkl_j2 : (L.rows.getD j []).getD (keyIdx L key) Cell.na
          = r.getD (keyIdx R key) Cell.na := by
        have hjlt2 : j < (keyCells L key).length := by
          simpa [keyCells] using hjlt
        rw [List.getD_eq_getElem _ _ hjlt2] at hkl_j
        rw [List.getD_eq_getElem _ _ hjlt]
        simpa [keyCells] using hkl_j
      simp only [mergeRowFor]
      rw [List.getD_append _ _ _ _ (by rw [hlen]; exact hkiL)]
      exact hkl_j2
  · -- no left row shares the key: the right-only entry is in the plan
    have hvno : (keyCells L key).contains (r.getD (keyIdx R key) Cell.na) = false := by
      simpa using hv
    have hplan := joinPlan_rightOnly_mem (keyCells L key) (keyCells R key) hkR hvno
    have hlen : ((L.cols.enum.map (fun p =>
        if p.1 == keyIdx L key then (keyCells R key).getD k0 Cell.na
        else Cell.na)) : List Cell).length = L.cols.length := by
      simp [List.enum_length]
    refine ⟨mergeRowFor L R key (none, some k0), ?_, ?_, ?_⟩
    · show _ ∈ (joinPlan (keyCells L key) (keyCells R key)).map (mergeRowFor L R key)
      exact List.mem_map_of_mem _ hplan
    · simp only [mergeRowFor]
      rw [← hlen, List.drop_left, hgetR]
    · simp only [mergeRowFor]
      rw [List.getD_append _ _ _ _ (by rw [hlen]; exact hkiL)]
      have heval := enumFrom_map_getD (fun p =>
        if p.1 == keyIdx L key then (keyCells R key).getD k0 Cell.na
        else Cell.na) Cell.na "" L.cols 0 (keyIdx L key) hkiL
      simp only [List.enum] at heval ⊢
      rw [heval]
      simpa using hvR

theorem pdMergeOuter_shared_cols (L R : DF) (key : String) (i : Nat) (c : String)
    (hcl : c ∈ L.cols) (hcr : c ∈ R.cols) (hck : c ≠ key) :
    c ∈ (pdMergeOuter L R key i).cols ∧
    (c ++ "_dup_" ++ toString i) ∈ (pdMergeOuter L R key i).cols := by
  constructor
  · show c ∈ L.cols ++ renamedRightCols L R key i
    exact List.mem_append_left _ hcl
  · show (c ++ "_dup_" ++ toString i) ∈ L.cols ++ renamedRightCols L R key i
    refine List.mem_append_right _ ?_
    obtain ⟨idx, hidx⟩ := mem_enumFrom_of_mem hcr 0
    have hnk : (idx, c) ∈ nonKeyEnum R key := by
      unfold nonKeyEnum
      exact List.mem_filter.mpr ⟨hidx, by simp [hck]⟩
    unfold renamedRightCols
    refine List.mem_map.mpr ⟨(idx, c), hnk, ?_⟩
    simp [hcl]

/-- C2: when the merge step finds a join key, that key is the FIRST
name of the fixed priority list present in both tables; the step is an
outer join that retains every row from either side (each left row is a
prefix of some output row; each right row's non-key cells and key value
appear in some output row, the key sitting in the left key position);
and every non-key column name shared by both sides yields both the
accumulator's original column and the incoming table's copy renamed
with the step-indexed suffix `_dup_<i>`. -/
theorem c2_merge_step (i : Nat) (L R : DF) (k : String)
    (hWFL : DFWF L) (hk : findCommonKey L R = some k) :
    ((L.cols.contains k && R.cols.contains k) = true ∧
      ∃ pre suf, priorityCols = pre ++ k :: suf ∧
        ∀ c ∈ pre, (L.cols.contains c && R.cols.contains c) = false) ∧
    mergeStep i L R = pdMergeOuter L R k i ∧
    (∀ c, c ∈ L.cols → c ∈ R.cols → c ≠ k →
      c ∈ (mergeStep i L R).cols ∧
      (c ++ "_dup_" ++ toString i) ∈ (mergeStep i L R).cols) ∧
    (∀ r ∈ L.rows, ∃ ext, r ++ ext ∈ (mergeStep i L R).rows) ∧
    (∀ r ∈ R.rows, ∃ row ∈ (mergeStep i L R).rows,
      row.drop L.cols.length = (nonKeyEnum R k).map (fun p => r.getD p.1 Cell.na) ∧
      row.getD (keyIdx L k) Cell.na = r.getD (keyIdx R k) Cell.na) := by
  have hk' : priorityCols.find? (fun c => L.cols.contains c && R.cols.contains c) = some k := hk
  obtain ⟨hpk, pre, suf, heq, hpre⟩ := find?_eq_some_split hk'
  have hkeyL : k ∈ L.cols := by
    have := (Bool.and_eq_true _ _).mp hpk
    simpa using this.1
  have hstep : mergeStep i L R = pdMergeOuter L R k i := by
    simp only [mergeStep, findCommonKey] at hk' ⊢
    rw [hk']
  refine ⟨⟨hpk, pre, suf, heq, hpre⟩, hstep, ?_, ?_, ?_⟩
  · intro c hcl hcr hck
    rw [hstep]
    exact pdMergeOuter_shared_cols L R k i c hcl hcr hck
  · intro r hr
    rw [hstep]
    exact pdMergeOuter_left_rows L R k i r hr
  · intro r hr
    rw [hstep]
    exact pdMergeOuter_right_rows L R k i hWFL hkeyL r hr

/-- Left input of the concrete C2 merge step. -/
def dfC2L : DF := ⟨["InstanceId", "X"], [[Cell.str "a", Cell.num ⟨1, 0⟩]]⟩

/-- Right input of the concrete C2 merge step. -/
def dfC2R : DF := ⟨["InstanceId", "X"], [[Cell.str "a", Cell.num ⟨2, 0⟩]]⟩

/-- Witness for C2 at step 1 on two one-row tables sharing
`InstanceId` (the key) and `X` (a non-key collision). -/
theorem c2_merge_step_witness :
    (DFWF dfC2L ∧ findCommonKey dfC2L dfC2R = some "InstanceId") ∧
    (((dfC2L.cols.contains "InstanceId" && dfC2R.cols.contains "InstanceId") = true ∧
      ∃ pre suf, priorityCols = pre ++ "InstanceId" :: suf ∧
        ∀ c ∈ pre, (dfC2L.cols.contains c && dfC2R.cols.contains c) = false) ∧
    mergeStep 1 dfC2L dfC2R = pdMergeOuter dfC2L dfC2R "InstanceId" 1 ∧
    (∀ c, c ∈ dfC2L.cols → c ∈ dfC2R.cols → c ≠ "InstanceId" →
      c ∈ (mergeStep 1 dfC2L dfC2R).cols ∧
      (c ++ "_dup_" ++ toString 1) ∈ (mergeStep 1 dfC2L dfC2R).cols) ∧
    (∀ r ∈ dfC2L.rows, ∃ ext, r ++ ext ∈ (mergeStep 1 dfC2L dfC2R).rows) ∧
    (∀ r ∈ dfC2R.rows, ∃ row ∈ (mergeStep 1 dfC2L dfC2R).rows,
      row.drop dfC2L.cols.length =
        (nonKeyEnum dfC2R "InstanceId").map (fun p => r.getD p.1 Cell.na) ∧
      row.getD (keyIdx dfC2L "InstanceId") Cell.na =
        r.getD (keyIdx dfC2R "InstanceId") Cell.na)) :=
  ⟨⟨by decide, by decide⟩,
   c2_merge_step 1 dfC2L dfC2R "InstanceId" (by decide) (by decide)⟩

/-- A name obtained from `base` by appending zero or more step-indexed
`_dup_<i>` disambiguation suffixes. -/
inductive SuffixedFrom (base : String) : String → Prop
  | here : SuffixedFrom base base
  | step (s : String) (i : Nat) :
      SuffixedFrom base s → SuffixedFrom base (s ++ "_dup_" ++ toString i)

theorem SuffixedFrom.trans {a b c : String}
    (h1 : SuffixedFrom a b) (h2 : SuffixedFrom b c) : SuffixedFrom a c := by
  induction h2 with
  | here => exact h1
  | step s i _ ih => exact SuffixedFrom.step s i ih

theorem mergeStep_cols_origin (i : Nat) (acc d : DF) (c : String)
    (hc : c ∈ (mergeStep i acc d).cols) :
    c ∈ acc.cols ∨ ∃ c0 ∈ d.cols, SuffixedFrom c0 c := by
  cases hfk : findCommonKey acc d with
  | some k =>
    have hstep : mergeStep i acc d = pdMergeOuter acc d k i := by
      simp only [mergeStep, hfk]
    rw [hstep] at hc
    have hc' : c ∈ acc.cols ++ renamedRightCols acc d k i := hc
    rcases List.mem_append.mp hc' with h | h
    · exact Or.inl h
    · right
      obtain ⟨p, hp, rfl⟩ := List.mem_map.mp h
      have hpd : p.2 ∈ d.cols := mem_enumFrom_mem (List.mem_of_mem_filter hp)
      by_cases hcl : acc.cols.contains p.2
      · refine ⟨p.2, hpd, ?_⟩
        rw [if_pos hcl]
        exact SuffixedFrom.step _ _ SuffixedFrom.here
      · refine ⟨p.2, hpd, ?_⟩
        rw [if_neg hcl]
        exact SuffixedFrom.here
  | none =>
    have hstep : mergeStep i acc d = pdConcatH acc d := by
      simp only [mergeStep, hfk]
    rw [hstep] at hc
    have hc' : c ∈ acc.cols ++ d.cols := hc
    rcases List.mem_append.mp hc' with h | h
    · exact Or.inl h
    · exact Or.inr ⟨c, h, SuffixedFrom.here⟩

theorem mergeAux_cols_origin :
    ∀ (ds : List DF) (i : Nat) (acc : DF) (c : String),
      c ∈ (mergeAux i acc ds).cols →
      (∃ c0 ∈ acc.cols, SuffixedFrom c0 c) ∨
      (∃ df ∈ ds, ∃ c0 ∈ df.cols, SuffixedFrom c0 c) := by
  intro ds
  induction ds with
  | nil =>
    intro i acc c hc
    exact Or.inl ⟨c, hc, SuffixedFrom.here⟩
  | cons d ds ih =>
    intro i acc c hc
    rcases ih (i + 1) (mergeStep i acc d) c hc with ⟨c0, hc0, hs⟩ | ⟨df, hdf, c0, hc0, hs⟩
    · rcases mergeStep_cols_origin i acc d c0 hc0 with h | ⟨c1, hc1, hs1⟩
      · exact Or.inl ⟨c0, h, hs⟩
      · exact Or.inr ⟨d, List.mem_cons_self _ _, c1, hc1, hs1.trans hs⟩
    · exact Or.inr ⟨df, List.mem_cons_of_mem _ hdf, c0, hc0, hs⟩

/-- C9 counterexample: merging two tables that share the non-key column
"X" produces the output column "X_dup_1", which belongs to NO input
table — the output columns are not a subset of the union of the input
columns. -/
theorem c9_suffixed_col_not_in_inputs :
    "X_dup_1" ∈ (merge_data_horizontally [dfC2L, dfC2R]).cols ∧
    ∀ df ∈ [dfC2L, dfC2R], "X_dup_1" ∉ df.cols :=
  ⟨by decide, by decide⟩

/-- C9 as amended: every column name of the Horizontal Merger's output
is an input table's column name extended by zero or more step-indexed
`_dup_<i>` suffixes (not necessarily the bare union), and duplicates
are collapsed keeping the first occurrence, so the output names are
pairwise distinct. -/
theorem c9_cols_origin (dfs : List DF) (c : String)
    (hc : c ∈ (merge_data_horizontally dfs).cols) :
    (∃ df ∈ dfs, ∃ c0 ∈ df.cols, SuffixedFrom c0 c) ∧
    (merge_data_horizontally dfs).cols.Nodup := by
  cases dfs with
  | nil => exact absurd hc (List.not_mem_nil c)
  | cons d ds =>
    constructor
    · have hc' : c ∈ (mergeAux 1 d ds).cols := (mem_dedupCols_cols _).mp hc
      rcases mergeAux_cols_origin ds 1 d c hc' with ⟨c0, hc0, hs⟩ | ⟨df, hdf, c0, hc0, hs⟩
      · exact ⟨d, List.mem_cons_self _ _, c0, hc0, hs⟩
      · exact ⟨df, List.mem_cons_of_mem _ hdf, c0, hc0, hs⟩
    · exact dedupCols_cols_nodup _

/-- Witness for C9 at a concrete input: the output column "X_dup_1"
originates from the inputs' column "X" by one suffixing step. -/
theorem c9_cols_origin_witness :
    ("X_dup_1" ∈ (merge_data_horizontally [dfC2L, dfC2R]).cols) ∧
    ((∃ df ∈ [dfC2L, dfC2R], ∃ c0 ∈ df.cols, SuffixedFrom c0 "X_dup_1") ∧
      (merge_data_horizontally [dfC2L, dfC2R]).cols.Nodup) :=
  ⟨by decide, c9_cols_origin [dfC2L, dfC2R] "X_dup_1" (by decide)⟩

/-- A one-row merged table for the C8 scenario. -/
def dfC8 : DF := ⟨["InstanceId"], [[Cell.str "i1"]]⟩

/-- C8 counterexample: `date_data['Parsed_Date'] = ...` mutates the
per-date table BEFORE it is stored in `date_sheets_data`, so the table
handed to the renderer for the date sheet carries an extra
`Parsed_Date` column and is not identical to the Merger's output. -/
theorem c8_parsed_date_mutation :
    consolidateEnvironmentData [(1, dfC8)] =
      some (⟨["InstanceId"], [[Cell.str "i1"]]⟩,
        [(1, ⟨["InstanceId", "Parsed_Date"], [[Cell.str "i1", Cell.date 1]]⟩)]) ∧
    (⟨["InstanceId", "Parsed_Date"], [[Cell.str "i1", Cell.date 1]]⟩ : DF) ≠ dfC8 :=
  ⟨by decide, by decide⟩

/-- C8 as amended: each per-date table handed to the Workbook Renderer
is the Merger's table for that date with exactly one `Parsed_Date`
column appended as the last column (the parsed date broadcast over
every row); the original columns and cell values are unchanged and
nothing else is added or removed. -/
theorem c8_sheets_are_merged_plus_parsed_date (perDate : List (Nat × DF)) (H : DF)
    (sheets : List (Nat × DF))
    (h : consolidateEnvironmentData perDate = some (H, sheets)) :
    ∀ d df', (d, df') ∈ sheets →
      ∃ df, (d, df) ∈ perDate ∧ df.isEmptyDF = false ∧
        df'.cols = df.cols ++ ["Parsed_Date"] ∧
        df'.rows = df.rows.map (fun r => r ++ [Cell.date d]) := by
  intro d df' hmem
  have hsheets : sheets = sheetTables perDate := by
    unfold consolidateEnvironmentData at h
    by_cases hkt : (keptTables perDate).isEmpty
    · rw [if_pos hkt] at h; cases h
    · rw [if_neg hkt] at h
      exact (congrArg Prod.snd (Option.some.inj h)).symm
  rw [hsheets] at hmem
  obtain ⟨p, hp, heq⟩ := List.mem_map.mp hmem
  have hp' : p ∈ perDate.filter (fun q => !(q.2.isEmptyDF)) := hp
  obtain ⟨hpd, hne⟩ := List.mem_filter.mp hp'
  have hd : p.1 = d := congrArg Prod.fst heq
  have hdf : addConstCol "Parsed_Date" (Cell.date p.1) p.2 = df' := congrArg Prod.snd heq
  refine ⟨p.2, ?_, ?_, ?_, ?_⟩
  · rw [← hd]
    exact hpd
  · simpa using hne
  · rw [← hdf]
    rfl
  · rw [← hdf, hd]
    rfl

/-- Witness for the amended C8 at a concrete input. -/
theorem c8_sheets_witness :
    (consolidateEnvironmentData [(1, dfC8)] =
      some (⟨["InstanceId"], [[Cell.str "i1"]]⟩,
        [(1, ⟨["InstanceId", "Parsed_Date"], [[Cell.str "i1", Cell.date 1]]⟩)])) ∧
    (∀ d df',
      (d, df') ∈ [((1 : Nat),
        (⟨["InstanceId", "Parsed_Date"], [[Cell.str "i1", Cell.date 1]]⟩ : DF))] →
      ∃ df, (d, df) ∈ [(1, dfC8)] ∧ df.isEmptyDF = false ∧
        df'.cols = df.cols ++ ["Parsed_Date"] ∧
        df'.rows = df.rows.map (fun r => r ++ [Cell.date d])) :=
  ⟨by decide,
   c8_sheets_are_merged_plus_parsed_date [(1, dfC8)]
     ⟨["InstanceId"], [[Cell.str "i1"]]⟩
     [(1, ⟨["InstanceId", "Parsed_Date"], [[Cell.str "i1", Cell.date 1]]⟩)]
     (by decide)⟩

theorem outputFileName_inj :
    ∀ e1 ∈ environments, ∀ e2 ∈ environments,
      outputFileName e1 = outputFileName e2 → e1 = e2 := by decide

/-- C6 counterexample: a `Patikar` directory exists under the only date
folder but contains no data.  Consolidation signals "no data" (`none`)
and no workbook is produced — but `process_all_environments` still
lists `Patikar` in `processed_environments`, because the processed
report tracks only directory existence, not data. -/
theorem c6_no_data_still_processed :
    consolidateEnvironmentData
      (perDateFor ["01-01-2025"] (fun _ _ => ⟨[], []⟩) "Patikar") = none ∧
    (processAllEnvironments ["01-01-2025"] (fun _ e => e == "Patikar")
      (fun _ _ => ⟨[], []⟩)).workbooks = [] ∧
    "Patikar" ∈ (processAllEnvironments ["01-01-2025"] (fun _ e => e == "Patikar")
      (fun _ _ => ⟨[], []⟩)).processed :=
  ⟨by decide, by decide, by decide⟩

/-- C6 as amended: an environment with no data across all dates makes
`consolidate_environment_data` signal `None` (never an empty table) and
no workbook file is produced for it; but the final processed report
lists the environment iff its directory exists in SOME date folder —
an environment whose directory exists yet yields no data is still
reported as processed. -/
theorem c6_no_data_no_workbook (dateFolders : List String)
    (envExists : String → String → Bool) (dataFor : String → String → DF)
    (env : String) (henv : env ∈ environments)
    (hnone : consolidateEnvironmentData (perDateFor dateFolders dataFor env) = none) :
    outputFileName env ∉ (processAllEnvironments dateFolders envExists dataFor).workbooks ∧
    (env ∈ (processAllEnvironments dateFolders envExists dataFor).processed ↔
      ∃ d ∈ dateFolders, envExists d env = true) := by
  unfold processAllEnvironments
  by_cases hdf : dateFolders.isEmpty
  · rw [if_pos hdf]
    have hnil : dateFolders = [] := by simpa [List.isEmpty_iff] using hdf
    subst hnil
    simp
  · rw [if_neg hdf]
    constructor
    · intro hmem
      obtain ⟨e, he, heq⟩ := List.mem_filterMap.mp hmem
      obtain ⟨x, hx, hfe⟩ := Option.map_eq_some'.mp heq
      have heenv : e ∈ environments := List.mem_of_mem_filter he
      have hee : e = env := outputFileName_inj e heenv env henv hfe
      rw [hee, hnone] at hx
      cases hx
    · show env ∈ environments.filter
        (fun env => dateFolders.any (fun d => envExists d env)) ↔ _
      simp [List.mem_filter, henv, List.any_eq_true]

/-- Witness for the amended C6 at a concrete input. -/
theorem c6_no_data_no_workbook_witness :
    ("Patikar" ∈ environments ∧
      consolidateEnvironmentData
        (perDateFor ["01-01-2025"] (fun _ _ => ⟨[], []⟩) "Patikar") = none) ∧
    (outputFileName "Patikar" ∉
        (processAllEnvironments ["01-01-2025"] (fun _ e => e == "Patikar")
          (fun _ _ => ⟨[], []⟩)).workbooks ∧
      ("Patikar" ∈ (processAllEnvironments ["01-01-2025"] (fun _ e => e == "Patikar")
          (fun _ _ => ⟨[], []⟩)).processed ↔
        ∃ d ∈ ["01-01-2025"], (fun _ e => e == "Patikar") d "Patikar" = true)) :=
  ⟨⟨by decide, by decide⟩,
   c6_no_data_no_workbook ["01-01-2025"] (fun _ e => e == "Patikar")
     (fun _ _ => ⟨[], []⟩) "Patikar" (by decide) (by decide)⟩

/-- C4: for an environment with at least one non-empty per-date Merged
Table, the History Table's row count equals the sum of the row counts
of its per-date tables, and the combined history is ordered
monotonically non-increasing by report date (the sort key is the
`Parsed_Date` value alone, descending, so rows of one date are adjacent
and equal-keyed); the final History Table's rows are exactly the sorted
rows with the `Parsed_Date` column masked out, in the same order. -/
theorem c4_history_count_and_order (perDate : List (Nat × DF)) (H : DF)
    (sheets : List (Nat × DF))
    (h : consolidateEnvironmentData perDate = some (H, sheets)) :
    H.rows.length = (sheets.map (fun p => p.2.rows.length)).sum ∧
    List.Sorted (fun a b : Nat => a ≥ b)
      ((combinedSorted perDate).rows.map
        (rowKey (combinedSorted perDate).cols "Parsed_Date")) ∧
    H.rows = (combinedSorted perDate).rows.map
      (maskFilter ((combinedSorted perDate).cols.map
        (fun c => !(["Parsed_Date"] : List String).contains c))) := by
  have hHS : H = dropDFCols ["Parsed_Date"] (combinedSorted perDate)
      ∧ sheets = sheetTables perDate := by
    unfold consolidateEnvironmentData at h
    by_cases hkt : (keptTables perDate).isEmpty
    · rw [if_pos hkt] at h; cases h
    · rw [if_neg hkt] at h
      have h2 := Option.some.inj h
      exact ⟨(congrArg Prod.fst h2).symm, (congrArg Prod.snd h2).symm⟩
  obtain ⟨hH, hS⟩ := hHS
  subst hH hS
  refine ⟨?_, ?_, rfl⟩
  · -- row count
    have h1 : (dropDFCols ["Parsed_Date"] (combinedSorted perDate)).rows.length
        = (combinedSorted perDate).rows.length := List.length_map _ _
    have h2 : (combinedSorted perDate).rows.length
        = (concatRows ((sheetTables perDate).map (fun p => p.2))).rows.length := by
      show (List.insertionSort _ _).length = _
      exact (List.perm_insertionSort _ _).length_eq
    have h3 : (concatRows ((sheetTables perDate).map (fun p => p.2))).rows.length
        = ((sheetTables perDate).map (fun p => p.2.rows.length)).sum := by
      show ((((sheetTables perDate).map (fun p => p.2)).map
        (fun df => df.rows.map (reindexRow df.cols
          (unionCols ((sheetTables perDate).map (fun p => p.2)))))).flatten).length = _
      rw [List.length_flatten, List.map_map, List.map_map]
      refine congrArg List.sum (List.map_congr_left ?_)
      intro p _
      simp [Function.comp]
    rw [h1, h2, h3]
  · -- sort order
    have hsorted : List.Sorted (fun a b : List Cell =>
        rowKey (concatRows ((sheetTables perDate).map (fun p => p.2))).cols "Parsed_Date" b
          ≤ rowKey (concatRows ((sheetTables perDate).map (fun p => p.2))).cols "Parsed_Date" a)
        ((combinedSorted perDate).rows) := by
      show List.Sorted _ (List.insertionSort _ _)
      haveI hT : IsTotal (List Cell) (fun a b : List Cell =>
          rowKey (concatRows ((sheetTables perDate).map (fun p => p.2))).cols "Parsed_Date" b
            ≤ rowKey (concatRows ((sheetTables perDate).map (fun p => p.2))).cols "Parsed_Date" a) :=
        ⟨fun a b => Nat.le_total _ _⟩
      haveI hTr : IsTrans (List Cell) (fun a b : List Cell =>
          rowKey (concatRows ((sheetTables perDate).map (fun p => p.2))).cols "Parsed_Date" b
            ≤ rowKey (concatRows ((sheetTables perDate).map (fun p => p.2))).cols "Parsed_Date" a) :=
        ⟨fun _ _ _ hab hbc => Nat.le_trans hbc hab⟩
      exact List.sorted_insertionSort _ _
    show List.Pairwise _ _
    rw [List.pairwise_map]
    exact hsorted

/-- Two one-row per-date tables for the C4 witness, dates 5 and 3. -/
def perDateC4 : List (Nat × DF) :=
  [(5, ⟨["A"], [[Cell.num ⟨1, 0⟩]]⟩), (3, ⟨["A"], [[Cell.num ⟨2, 0⟩]]⟩)]

/-- Witness for C4 at a concrete two-date input. -/
theorem c4_history_witness :
    (consolidateEnvironmentData perDateC4 =
      some (⟨["A"], [[Cell.num ⟨1, 0⟩], [Cell.num ⟨2, 0⟩]]⟩,
        [(5, ⟨["A", "Parsed_Date"], [[Cell.num ⟨1, 0⟩, Cell.date 5]]⟩),
         (3, ⟨["A", "Parsed_Date"], [[Cell.num ⟨2, 0⟩, Cell.date 3]]⟩)])) ∧
    ((⟨["A"], [[Cell.num ⟨1, 0⟩], [Cell.num ⟨2, 0⟩]]⟩ : DF).rows.length =
      ([(5, (⟨["A", "Parsed_Date"], [[Cell.num ⟨1, 0⟩, Cell.date 5]]⟩ : DF)),
        (3, ⟨["A", "Parsed_Date"], [[Cell.num ⟨2, 0⟩, Cell.date 3]]⟩)].map
          (fun p => p.2.rows.length)).sum ∧
    List.Sorted (fun a b : Nat => a ≥ b)
      ((combinedSorted perDateC4).rows.map
        (rowKey (combinedSorted perDateC4).cols "Parsed_Date")) ∧
    (⟨["A"], [[Cell.num ⟨1, 0⟩], [Cell.num ⟨2, 0⟩]]⟩ : DF).rows =
      (combinedSorted perDateC4).rows.map
        (maskFilter ((combinedSorted perDateC4).cols.map
          (fun c => !(["Parsed_Date"] : List String).contains c)))) :=
  ⟨by decide,
   c4_history_count_and_order perDateC4
     ⟨["A"], [[Cell.num ⟨1, 0⟩], [Cell.num ⟨2, 0⟩]]⟩
     [(5, ⟨["A", "Parsed_Date"], [[Cell.num ⟨1, 0⟩, Cell.date 5]]⟩),
      (3, ⟨["A", "Parsed_Date"], [[Cell.num ⟨2, 0⟩, Cell.date 3]]⟩)]
     (by decide)⟩

/-- C10: each registered highlight formula's cell reference is built
from the single character `chr(65 + column_index)`.  That character is
an uppercase column letter denoting exactly index `idx` only when
`idx ≤ 25`; for `idx ≥ 26` it is not a letter in `A..Z` at all (for
codepoints below the surrogate range it lies strictly past `'Z'`), so
the formula does not reference the highlighted column. -/
theorem c10_column_letter (df : DF) (env : String) (idx : Nat) (crit : String)
    (hmem : (idx, crit) ∈ conditionalFormats df env) :
    crit = criteriaFor idx ∧
    (idx ≤ 25 → ('A' ≤ colLetterOf idx ∧ colLetterOf idx ≤ 'Z') ∧
      (colLetterOf idx).toNat - 65 = idx) ∧
    (26 ≤ idx → ¬('A' ≤ colLetterOf idx ∧ colLetterOf idx ≤ 'Z')) ∧
    (26 ≤ idx → 65 + idx < 55296 → 'Z' < colLetterOf idx) := by
  refine ⟨?_, ?_, ?_, ?_⟩
  · obtain ⟨c, _, heq⟩ := List.mem_filterMap.mp hmem
    obtain ⟨i0, _, hpair⟩ := Option.map_eq_some'.mp heq
    have hi : i0 = idx := congrArg Prod.fst hpair
    have hc : criteriaFor i0 = crit := congrArg Prod.snd hpair
    rw [← hc, hi]
  · intro hle
    have hval : (65 + idx).isValidChar := Or.inl (by omega)
    have htn : (colLetterOf idx).toNat = 65 + idx := by
      unfold colLetterOf Char.ofNat
      rw [dif_pos hval]
      rfl
    refine ⟨⟨?_, ?_⟩, ?_⟩
    · show (65 : Nat) ≤ (colLetterOf idx).toNat
      omega
    · show (colLetterOf idx).toNat ≤ 90
      omega
    · omega
  · intro h26
    rintro ⟨hA, hZ⟩
    have hA' : (65 : Nat) ≤ (colLetterOf idx).toNat := hA
    have hZ' : (colLetterOf idx).toNat ≤ 90 := hZ
    by_cases hval : (65 + idx).isValidChar
    · have htn : (colLetterOf idx).toNat = 65 + idx := by
        unfold colLetterOf Char.ofNat
        rw [dif_pos hval]
        rfl
      omega
    · have htn : (colLetterOf idx).toNat = 0 := by
        unfold colLetterOf Char.ofNat
        rw [dif_neg hval]
        rfl
      omega
  · intro h26 hlt
    have hval : (65 + idx).isValidChar := Or.inl (by omega)
    have htn : (colLetterOf idx).toNat = 65 + idx := by
      unfold colLetterOf Char.ofNat
      rw [dif_pos hval]
      rfl
    show (90 : Nat) < (colLetterOf idx).toNat
    omega

/-- A sheet whose highlight-eligible column sits at index 26 (columns
`c0..c25` pad the front). -/
def dfC10 : DF :=
  ⟨(List.range 26).map (fun n => "c" ++ toString n) ++ ["Current CPUUtilization (%)"], []⟩

/-- Witness for C10: the Patikar column at index 26 gets a formula
whose reference character `chr(91) = '['` is past `'Z'`. -/
theorem c10_column_letter_witness :
    ((26, criteriaFor 26) ∈ conditionalFormats dfC10 "Patikar") ∧
    (criteriaFor 26 = criteriaFor 26 ∧
     (26 ≤ 25 → ('A' ≤ colLetterOf 26 ∧ colLetterOf 26 ≤ 'Z') ∧
       (colLetterOf 26).toNat - 65 = 26) ∧
     (26 ≤ 26 → ¬('A' ≤ colLetterOf 26 ∧ colLetterOf 26 ≤ 'Z')) ∧
     (26 ≤ 26 → 65 + 26 < 55296 → 'Z' < colLetterOf 26)) :=
  ⟨by decide, c10_column_letter dfC10 "Patikar" 26 (criteriaFor 26) (by decide)⟩
